import Mathlib

/-!
Verification development for the picking-list processor (`src/app.py`).

Strings are modelled as `List Char` (Python `str`, code-point sequences).
Python `float` values arising here are modelled as rationals `ℚ`: every
numeric literal the program parses is a decimal fraction, and all values the
specification mentions are exactly representable.

The regular-expression matching in the source is embedded as explicit
backtracking enumeration: each greedy sub-pattern enumerates its candidate
matches longest-first, each lazy sub-pattern shortest-first, and the overall
match is the first success, which is exactly the Python `re` backtracking
order for these alternation-free patterns.  `re.search` tries start
positions left to right.
-/

namespace PackingList

abbrev Chars := List Char

/-- ASCII decimal digit, Python regex `\d` on the inputs in scope. -/
def isDigitCh (c : Char) : Bool := '0' ≤ c && c ≤ '9'

/-- ASCII uppercase letter, Python regex `[A-Z]`. -/
def isUpperCh (c : Char) : Bool := 'A' ≤ c && c ≤ 'Z'

/-- ASCII lowercase letter, Python regex `[a-z]`. -/
def isLowerAscii (c : Char) : Bool := 'a' ≤ c && c ≤ 'z'

/-- The lowercase class of the splitter regex `[a-záéíóúñ]` (app.py line 39). -/
def isLowerSp (c : Char) : Bool :=
  isLowerAscii c || c == 'á' || c == 'é' || c == 'í' || c == 'ó' || c == 'ú' || c == 'ñ'

/-- Python regex `[A-Z0-9]`. -/
def isCodeCh (c : Char) : Bool := isUpperCh c || isDigitCh c

/-- Python regex `[A-Za-z0-9]`. -/
def isAlnumCh (c : Char) : Bool := isUpperCh c || isLowerAscii c || isDigitCh c

/-- Whitespace as recognized by Python `str.strip()` and regex `\s`
(ASCII range; the document text in scope contains no exotic spaces). -/
def isSpaceCh (c : Char) : Bool :=
  c == ' ' || c == '\t' || c == '\n' || c == '\r' || c == '\x0b' || c == '\x0c'

/-- Python regex `.` (any character except a newline). -/
def notNL (c : Char) : Bool := c != '\n'

/-- Python regex `[\d.,]` (the stock-level character class, app.py line 116). -/
def isNumCh (c : Char) : Bool := isDigitCh c || c == '.' || c == ','

/-- Python `str.strip()`. -/
def strip (s : Chars) : Chars :=
  ((s.dropWhile isSpaceCh).reverse.dropWhile isSpaceCh).reverse

/-- Value of a string of decimal digits. -/
def natOfDigits (s : Chars) : Nat :=
  s.foldl (fun n c => 10 * n + (c.toNat - 48)) 0

/-- Python `float()` on the strings reachable in this program: an optional
sign, then digits with at most one decimal point (at least one digit
overall).  Returns `none` where Python raises `ValueError`. -/
def pyFloat? (s : Chars) : Option ℚ :=
  let (sgn, t) : Int × Chars :=
    match s with
    | '-' :: t => (-1, t)
    | '+' :: t => (1, t)
    | _ => (1, s)
  let intPart := t.takeWhile isDigitCh
  let rest := t.dropWhile isDigitCh
  match rest with
  | [] =>
    if intPart.isEmpty then none
    else some (mkRat (sgn * natOfDigits intPart) 1)
  | '.' :: frac =>
    if frac.all isDigitCh && !(intPart.isEmpty && frac.isEmpty) then
      some (mkRat (sgn * (natOfDigits intPart * 10 ^ frac.length + natOfDigits frac))
        (10 ^ frac.length))
    else none
  | _ => none

/-- Stock-level parsing (app.py lines 133-134): strip every dot (thousands
separator), turn each comma into a decimal point, then `float()`. -/
def parseStock (s : Chars) : Option ℚ :=
  pyFloat? ((s.filter (fun c => c != '.')).map (fun c => if c == ',' then '.' else c))

/-! ### The code/description splitter (`split_cod_viejo_articulo`) -/

/-- Position of the first occurrence of regex `[A-Z][a-záéíóúñ]`
(`re.search` on app.py line 39 reports the leftmost match). -/
def firstCase1Pos : Chars → Option Nat
  | [] => none
  | [_] => none
  | a :: b :: rest =>
    if isUpperCh a && isLowerSp b then some 0
    else (firstCase1Pos (b :: rest)).map (· + 1)

/-- The guard of case 1 of the splitter (app.py line 40):
`match` nonempty and `match.start() > 0`. -/
def case1Applies (s : Chars) : Bool :=
  match firstCase1Pos s with
  | some p => decide (0 < p)
  | none => false

/-- One backtracking attempt of the case-2 regex
`^([A-Z0-9]*[A-Z]{1,2})(\d{4}[/\.\-].*)$` (app.py line 46) with the star
matching `k` characters and the `{1,2}` block matching `j` characters. -/
def case2TryJ (s : Chars) (k j : Nat) : Option (Chars × Chars) :=
  if (s.take k).length = k && (s.take k).all isCodeCh &&
     ((s.drop k).take j).length = j && ((s.drop k).take j).all isUpperCh &&
     d4sepTail (s.drop (k + j)) then
    some (s.take (k + j), s.drop (k + j))
  else none
where
  /-- Tail pattern `\d{4}[/\.\-].*$`: four digits, a separator, then to end of string. -/
  d4sepTail : Chars → Bool
  | d1 :: d2 :: d3 :: d4 :: sp :: rest =>
    isDigitCh d1 && isDigitCh d2 && isDigitCh d3 && isDigitCh d4 &&
    (sp == '/' || sp == '.' || sp == '-') && rest.all notNL
  | _ => false

/-- Backtracking over the star length `k` (longest first, Python greedy),
inner `{1,2}` block trying 2 then 1. -/
def case2Go (s : Chars) : Nat → Option (Chars × Chars)
  | 0 => (case2TryJ s 0 2).orElse fun _ => case2TryJ s 0 1
  | k + 1 =>
    (((case2TryJ s (k + 1) 2).orElse fun _ => case2TryJ s (k + 1) 1).orElse
      fun _ => case2Go s k)

/-- Case 2 of the splitter: the anchored regex match on the concatenated
text, greedy preference order. -/
def case2Match (s : Chars) : Option (Chars × Chars) :=
  case2Go s (s.takeWhile isCodeCh).length

/-- Python `str.endswith` with two asterisks (app.py line 51). -/
def endsWithStars (c : Chars) : Bool :=
  match c.reverse with
  | '*' :: '*' :: _ => true
  | _ => false

/-- Case 1 result of the splitter (app.py lines 41-43): split the code token
at position `p`, append the article token to the description after a space
when it is nonempty, strip both sides. -/
def splitCase1 (c a : Chars) (p : Nat) : Chars × Chars :=
  (strip (c.take p), strip (c.drop p ++ (if a.isEmpty then [] else ' ' :: a)))

/-- Cases 2, 3 and the fallthrough of the splitter (app.py lines 45-54). -/
def splitCases23 (c a : Chars) : Chars × Chars :=
  match case2Match (c ++ a) with
  | some (g1, g2) => (g1, g2)
  | none =>
    if endsWithStars c then (strip c.dropLast.dropLast, '*' :: '*' :: ' ' :: a)
    else (c, a)

/-- Function `split_cod_viejo_articulo` (app.py lines 26-54): strip both tokens, then
run the ordered heuristic chain. -/
def split_cod_viejo_articulo (codViejoRaw articuloRaw : Chars) : Chars × Chars :=
  let c := strip codViejoRaw
  let a := strip articuloRaw
  match firstCase1Pos c with
  | some p => if 0 < p then splitCase1 c a p else splitCases23 c a
  | none => splitCases23 c a

/-! ### The segment field pattern (`extract_picking_data`, app.py lines 115-144)

The pattern
`(\d{1,3})\s*([A-Z]{2}[A-Z0-9]+)\s+([A-Z0-9][A-Za-z0-9]*)\s*(.+?)\s+(\d+)\s+(-?[\d.,]+)\s*$`
is embedded as a first-success backtracking search.  A greedy character-class
repetition can only consume a prefix of the maximal run of its class, so its
candidate matches are enumerated longest-first; a lazy repetition
shortest-first. -/

/-- Candidate splits of a greedy class repetition with multiplicity bounds
`lo..hi`: `(take k, drop k)` for `k` from the run length (capped at `hi`)
down to `lo`. -/
def greedySplits (p : Char → Bool) (lo hi : Nat) (s : Chars) : List (Chars × Chars) :=
  let m := min (s.takeWhile p).length hi
  (((List.range (m + 1)).reverse).filter (fun k => lo ≤ k)).map
    (fun k => (s.take k, s.drop k))

/-- Candidate splits of a lazy repetition, shortest first. -/
def lazySplits (p : Char → Bool) (lo : Nat) (s : Chars) : List (Chars × Chars) :=
  let m := (s.takeWhile p).length
  ((List.range (m + 1)).filter (fun k => lo ≤ k)).map
    (fun k => (s.take k, s.drop k))

/-- Candidate matches of `[A-Z]{2}[A-Z0-9]+` (the item code). -/
def group2Splits (s : Chars) : List (Chars × Chars) :=
  match s with
  | a :: b :: rest =>
    if isUpperCh a && isUpperCh b then
      (greedySplits isCodeCh 1 rest.length rest).map (fun q => (a :: b :: q.1, q.2))
    else []
  | _ => []

/-- Candidate matches of `[A-Z0-9][A-Za-z0-9]*` (the raw legacy-code token). -/
def group3Splits (s : Chars) : List (Chars × Chars) :=
  match s with
  | a :: rest =>
    if isCodeCh a then
      (greedySplits isAlnumCh 0 rest.length rest).map (fun q => (a :: q.1, q.2))
    else []
  | [] => []

/-- Candidate matches of `-?[\d.,]+` (the stock token); the greedy `-?`
prefers consuming the sign. -/
def group6Splits (s : Chars) : List (Chars × Chars) :=
  (match s with
   | '-' :: rest => (greedySplits isNumCh 1 rest.length rest).map (fun q => ('-' :: q.1, q.2))
   | _ => []) ++ greedySplits isNumCh 1 s.length s

/-- The six captured groups of the segment pattern. -/
structure SegGroups where
  g1 : Chars
  g2 : Chars
  g3 : Chars
  g4 : Chars
  g5 : Chars
  g6 : Chars
deriving Repr, DecidableEq

/-- Match the segment pattern anchored at the start of `s` (first success in
backtracking preference order). -/
def segMatchAt (s : Chars) : Option SegGroups :=
  (greedySplits isDigitCh 1 3 s).findSome? fun q1 =>
  (greedySplits isSpaceCh 0 q1.2.length q1.2).findSome? fun w1 =>
  (group2Splits w1.2).findSome? fun q2 =>
  (greedySplits isSpaceCh 1 q2.2.length q2.2).findSome? fun w2 =>
  (group3Splits w2.2).findSome? fun q3 =>
  (greedySplits isSpaceCh 0 q3.2.length q3.2).findSome? fun w3 =>
  (lazySplits notNL 1 w3.2).findSome? fun q4 =>
  (greedySplits isSpaceCh 1 q4.2.length q4.2).findSome? fun w4 =>
  (greedySplits isDigitCh 1 w4.2.length w4.2).findSome? fun q5 =>
  (greedySplits isSpaceCh 1 q5.2.length q5.2).findSome? fun w5 =>
  (group6Splits w5.2).findSome? fun q6 =>
  if q6.2.all isSpaceCh then
    some ⟨q1.1, q2.1, q3.1, q4.1, q5.1, q6.1⟩
  else none

/-- Python `re.search`: try each start position left to right. -/
def segSearch (s : Chars) : Option SegGroups :=
  (List.range (s.length + 1)).findSome? (fun i => segMatchAt (s.drop i))

/-- One extracted record (`all_rows` entries, app.py lines 136-144).
`cantidad` and `stock` are Python floats, modelled as rationals. -/
structure Row where
  linea_original : Nat
  codigo : Chars
  cod_viejo : Chars
  articulo : Chars
  cantidad : ℚ
  stock : ℚ
  almacen : Chars
deriving Repr, DecidableEq, Inhabited

/-- The fixed warehouse marker/value. -/
def riestra : Chars := "RIESTRA".data

/-- Processing of one `RIESTRA`-delimited segment (app.py lines 108-144):
strip, skip if empty, match the field pattern, split the compound token,
parse quantity and stock, and build the record with the literal warehouse
code.  Returns `none` when the segment is dropped (no match / empty) or the
stock text fails `float()`. -/
def parseSegment (seg : Chars) : Option Row :=
  let s := strip seg
  if s.isEmpty then none
  else
    match segSearch s with
    | none => none
    | some g =>
      let cv := split_cod_viejo_articulo g.g3 (strip g.g4)
      match parseStock g.g6 with
      | none => none
      | some st =>
        some { linea_original := natOfDigits g.g1
               codigo := g.g2
               cod_viejo := cv.1
               articulo := cv.2
               cantidad := (natOfDigits g.g5 : ℚ)
               stock := st
               almacen := riestra }

/-! ### Page accumulation and the packing-section boundary -/

/-- Substring containment, Python `needle in hay`. -/
def containsSeq (needle : Chars) : Chars → Bool
  | [] => needle.isEmpty
  | c :: rest => needle.isPrefixOf (c :: rest) || containsSeq needle rest

/-- The packing-section marker conjunction (app.py line 75):
the page text contains both fixed phrases. -/
def isBoundaryPage (t : Chars) : Bool :=
  containsSeq "Codigo Cliente".data t && containsSeq "LN".data t

/-- Index of the first packing page (`packing_start_page`): the loop on
app.py lines 71-77 breaks at the first page whose text has both markers. -/
def detectPackingStart : List Chars → Option Nat
  | [] => none
  | t :: ts =>
    if isBoundaryPage t then some 0
    else (detectPackingStart ts).map (· + 1)

/-- Python `text.split` on a single newline character. -/
def splitLinesNL (s : Chars) : List Chars :=
  s.foldr
    (fun c acc =>
      if c == '\n' then [] :: acc
      else
        match acc with
        | [] => [[c]]
        | l :: ls => (c :: l) :: ls)
    [[]]

/-- Python uppercasing restricted to the characters appearing here. -/
def pyUpperCh (c : Char) : Char :=
  if isLowerAscii c then Char.ofNat (c.toNat - 32)
  else if c == 'á' then 'Á'
  else if c == 'é' then 'É'
  else if c == 'í' then 'Í'
  else if c == 'ó' then 'Ó'
  else if c == 'ú' then 'Ú'
  else if c == 'ñ' then 'Ñ'
  else c

/-- The header/footer keyword list of app.py lines 97-101. -/
def headerKeywords : List Chars :=
  ["PICKING LIST", "N°:", "FECHA:", "HORA:", "ESTADO:",
   "COD VIEJO", "PÁGINA", "PREPARO:", "CONTROLO:",
   "COD COD", "COMIENZO", "FINALIZADO", "ARTICULO", "ALMACEN"].map String.data

/-- A line is skipped when its uppercased text contains a keyword. -/
def isSkippedLine (l : Chars) : Bool :=
  headerKeywords.any (fun k => containsSeq k (l.map pyUpperCh))

/-- Text a single page contributes to `accumulated_text`
(app.py lines 92-103): each stripped, nonempty, non-header line preceded by
one space. -/
def cleanPageText (t : Chars) : Chars :=
  ((splitLinesNL t).map strip).foldl
    (fun acc l => if l.isEmpty || isSkippedLine l then acc else acc ++ ' ' :: l)
    []

/-- Accumulation across pages, stopping at the first packing page
(the `break` on app.py line 77). -/
def accumulateText : List Chars → Chars
  | [] => []
  | t :: ts => if isBoundaryPage t then [] else cleanPageText t ++ accumulateText ts

/-- Accumulation with no boundary check (every page contributes). -/
def accumulateAllText (pages : List Chars) : Chars :=
  (pages.map cleanPageText).flatten

/-- Split on each non-overlapping occurrence of the separator, left to
right (Python `str.split(sep)`); fuel-driven recursion, fuel `length + 1`
always suffices for a nonempty separator. -/
def splitSepAux (sep : Chars) : Nat → Chars → Chars → List Chars
  | 0, s, acc => [acc.reverse ++ s]
  | _ + 1, [], acc => [acc.reverse]
  | fuel + 1, c :: rest, acc =>
    if sep.isPrefixOf (c :: rest) then
      acc.reverse :: splitSepAux sep fuel ((c :: rest).drop sep.length) []
    else splitSepAux sep fuel rest (c :: acc)

/-- Python `accumulated_text.split('RIESTRA')` (app.py line 106). -/
def splitOnSeq (sep s : Chars) : List Chars :=
  splitSepAux sep (s.length + 1) s []

/-- Function `extract_picking_data` restricted to its record output and boundary
report (the header map is not the subject of any claim). -/
def extract_picking_data (pages : List Chars) : List Row × Option Nat :=
  ((splitOnSeq riestra (accumulateText pages)).filterMap parseSegment,
   detectPackingStart pages)

/-! ### The consolidator (`process_picking_data`, app.py lines 149-164)

`pandas.groupby('cod_viejo')` with `first`/`sum` aggregations followed by
`sort_values('cod_viejo')` and 1-based renumbering: the output has one
record per distinct key, keys in ascending code-point order, `first` taking
the first record of the group in original order and `sum` adding the whole
group. -/

/-- One consolidated record. -/
structure CRow where
  linea : Nat
  codigo : Chars
  cod_viejo : Chars
  articulo : Chars
  cantidad : ℚ
  stock : ℚ
  almacen : Chars
deriving Repr, DecidableEq

/-- Code-point lexicographic order on strings (Python `str` comparison,
used by pandas to sort the keys). -/
def strLe : Chars → Chars → Bool
  | [], _ => true
  | _ :: _, [] => false
  | a :: as, b :: bs =>
    if a.toNat < b.toNat then true
    else if b.toNat < a.toNat then false
    else strLe as bs

instance : DecidableRel (fun a b : Chars => strLe a b = true) :=
  fun a b => inferInstanceAs (Decidable (strLe a b = true))

/-- First record of the group of key `k` in original order
(the `first` aggregation). -/
def firstRowWith (rows : List Row) (k : Chars) : Row :=
  (rows.find? (fun r => r.cod_viejo == k)).getD default

/-- Total quantity of the group of key `k` (the `sum` aggregation). -/
def groupQty (rows : List Row) (k : Chars) : ℚ :=
  ((rows.filter (fun r => r.cod_viejo == k)).map (fun r => r.cantidad)).sum

/-- The consolidated record of key `k` carrying line number `i`. -/
def mkConsolidated (rows : List Row) (k : Chars) (i : Nat) : CRow :=
  let r0 := firstRowWith rows k
  { linea := i, codigo := r0.codigo, cod_viejo := k, articulo := r0.articulo,
    cantidad := groupQty rows k, stock := r0.stock, almacen := r0.almacen }

/-- One consolidated record per key, numbering from `i`. -/
def consolidate (rows : List Row) : List Chars → Nat → List CRow
  | [], _ => []
  | k :: ks, i => mkConsolidated rows k i :: consolidate rows ks (i + 1)

/-- The distinct keys in ascending order. -/
def sortedKeys (rows : List Row) : List Chars :=
  ((rows.map (fun r => r.cod_viejo)).dedup).insertionSort
    (fun a b => strLe a b = true)

/-- Function `process_picking_data` (app.py lines 149-164). -/
def process_picking_data (rows : List Row) : List CRow :=
  consolidate rows (sortedKeys rows) 1

/-! ### Auxiliary string predicates used by theorem statements -/

/-- Test whether `suf` is a suffix of `s`. -/
def endsWithSeq (suf s : Chars) : Bool :=
  suf.reverse.isPrefixOf s.reverse

/-- The claim-facing shape of the case-2 description side: four digits then
one of `/`, `.`, `-`. -/
def d4sepPrefixB : Chars → Bool
  | d1 :: d2 :: d3 :: d4 :: sp :: _ =>
    isDigitCh d1 && isDigitCh d2 && isDigitCh d3 && isDigitCh d4 &&
    (sp == '/' || sp == '.' || sp == '-')
  | _ => false

/-- The concrete record used by the C8 witness. -/
def rowW : Row := ⟨1, "AA".data, "A".data, "x".data, 5, 2, riestra⟩

/-- The consolidated record of `rowW` alone. -/
def crowW : CRow := ⟨1, "AA".data, "A".data, "x".data, 5, 2, riestra⟩

/-! ### Theorems -/

/-- C3: stock-level parsing is exact under the locale rules: every dot is
stripped as a thousands separator and the comma becomes the decimal point,
so the stock text `"3.228"` parses to `3228`, `"3.228,50"` parses to
`3228.50` (the rational `6457/2`), and `"-5"` parses to `-5`. -/
theorem parse_stock_locale_exact :
    parseStock "3.228".data = some 3228
    ∧ parseStock "3.228,50".data = some ((6457 : ℚ) / 2)
    ∧ parseStock "-5".data = some (-5) := by
  refine ⟨by decide, ?_, by decide⟩
  have h : parseStock "3.228,50".data = some (mkRat 6457 2) := by decide
  rw [h]
  norm_num [mkRat, Rat.normalize]

/-- C6: when the first occurrence in the (stripped) code token of an
uppercase letter immediately followed by a lowercase letter is at a
position `p > 0`, the splitter splits there: the left part (stripped)
becomes the legacy code and the rest, with the article token appended
after a space when nonempty, becomes the description.  In particular the
compound remainder `"FVMB1CR181Grifería"` yields legacy code
`"FVMB1CR181"` and description `"Grifería"`. -/
theorem natural_word_split_spec (cv ar : Chars) (p : Nat)
    (h1 : firstCase1Pos (strip cv) = some p) (h2 : 0 < p) :
    split_cod_viejo_articulo cv ar =
      (strip ((strip cv).take p),
       strip ((strip cv).drop p ++ (if (strip ar).isEmpty then [] else ' ' :: strip ar)))
    ∧ split_cod_viejo_articulo "FVMB1CR181Grifería".data [] =
        ("FVMB1CR181".data, "Grifería".data) := by
  refine ⟨?_, by decide⟩
  simp only [split_cod_viejo_articulo, h1, if_pos h2, splitCase1]

/-- Witness for C6 at the concrete scenario input. -/
theorem natural_word_split_spec_witness :
    split_cod_viejo_articulo "FVMB1CR181Grifería".data [] =
      ("FVMB1CR181".data, "Grifería".data) :=
  (natural_word_split_spec "FVMB1CR181Grifería".data [] 10 (by decide) (by decide)).2

/-- When the natural-word rule does not apply, the splitter runs the
remaining cases on the stripped tokens. -/
lemma split_eq_splitCases23 (cv ar : Chars) (h1 : case1Applies (strip cv) = false) :
    split_cod_viejo_articulo cv ar = splitCases23 (strip cv) (strip ar) := by
  simp only [split_cod_viejo_articulo]
  cases h : firstCase1Pos (strip cv) with
  | none => rfl
  | some p =>
    have hp : ¬ 0 < p := by
      simp only [case1Applies, h] at h1
      exact of_decide_eq_false h1
    show (if 0 < p then splitCase1 (strip cv) (strip ar) p
          else splitCases23 (strip cv) (strip ar)) = splitCases23 (strip cv) (strip ar)
    rw [if_neg hp]

/-- Counterexample to C5: on code token `"AB12**"` with article token
`"Texto"` the splitter returns legacy code `"AB12"` and description
`"** Texto"`: the `**` marker is removed from the legacy-code side (which
does not end with `" **"`) and moved to the front of the description,
contrary to the claim. -/
theorem double_star_moves_to_description :
    split_cod_viejo_articulo "AB12**".data "Texto".data = ("AB12".data, "** Texto".data)
    ∧ endsWithSeq " **".data (split_cod_viejo_articulo "AB12**".data "Texto".data).1 = false
    ∧ "**".data.isPrefixOf (split_cod_viejo_articulo "AB12**".data "Texto".data).2 = true := by
  decide

/-- C5 as amended: when neither the natural-word rule nor the four-digit
rule applies and the stripped code token ends with `**`, the splitter
removes the trailing `**` from the legacy-code side (stripping any space
left behind) and prepends `"** "` to the description side. -/
theorem double_star_amended (cv ar : Chars)
    (h1 : case1Applies (strip cv) = false)
    (h2 : case2Match (strip cv ++ strip ar) = none)
    (h3 : endsWithStars (strip cv) = true) :
    split_cod_viejo_articulo cv ar =
      (strip (strip cv).dropLast.dropLast, '*' :: '*' :: ' ' :: strip ar) := by
  rw [split_eq_splitCases23 cv ar h1]
  simp only [splitCases23, h2, h3, if_pos]

/-- Witness for the amended C5 at a concrete input. -/
theorem double_star_amended_witness :
    split_cod_viejo_articulo "AB12**".data "Texto".data =
      (strip (strip "AB12**".data).dropLast.dropLast, '*' :: '*' :: ' ' :: strip "Texto".data) :=
  double_star_amended "AB12**".data "Texto".data (by decide) (by decide) (by decide)

/-- Counterexample to C2: the field pattern captures the quantity as a
plain digit run, so a candidate whose quantity slot holds `"12,50"` does
not match and is dropped: no record (in particular none with quantity
`12.50`) is produced from it. -/
theorem quantity_comma_candidate_dropped :
    parseSegment "1 ABCD XY1 Foo 12,50 100".data = none := by
  decide

/-- C2 as amended: the quantity field accepts digit-only strings and parses
them exactly as integers: the candidate with quantity text `"12"` yields
quantity `12`, the same candidate with `"12,50"` is dropped, and two
extracted records with legacy code `"AB123"` and quantities `5` and `3.50`
consolidate into a single record with quantity `8.50` (= `17/2`). -/
theorem quantity_digits_only_and_consolidation :
    (parseSegment "1 ABCD XY1 Foo 12 100".data).map (fun r => r.cantidad) = some 12
    ∧ parseSegment "1 ABCD XY1 Foo 12,50 100".data = none
    ∧ (process_picking_data
        [⟨1, "CC11".data, "AB123".data, "x".data, 5, 10, riestra⟩,
         ⟨2, "CC11".data, "AB123".data, "x".data, mkRat 7 2, 10, riestra⟩]).map
          (fun c => (c.cod_viejo, c.cantidad)) = [("AB123".data, (17 : ℚ) / 2)] := by
  refine ⟨by decide, by decide, ?_⟩
  with_unfolding_all decide

/-- The detector reports no boundary exactly when no page text has the
marker conjunction. -/
lemma detectPackingStart_none_iff (pages : List Chars) :
    detectPackingStart pages = none ↔ ∀ t ∈ pages, isBoundaryPage t = false := by
  induction pages with
  | nil => simp [detectPackingStart]
  | cons t ts ih =>
    by_cases h : isBoundaryPage t
    · simp [detectPackingStart, h]
    · simp [detectPackingStart, h, Option.map_eq_none', ih, eq_false_of_ne_true h]

/-- The detector reports index `i` exactly when page `i` exists, has the
marker conjunction, and no earlier page has it. -/
lemma detectPackingStart_some_iff (pages : List Chars) (i : Nat) :
    detectPackingStart pages = some i ↔
      (i < pages.length ∧ isBoundaryPage (pages.getD i []) = true ∧
        ∀ j, j < i → isBoundaryPage (pages.getD j []) = false) := by
  induction pages generalizing i with
  | nil => simp [detectPackingStart]
  | cons t ts ih =>
    by_cases h : isBoundaryPage t
    · simp only [detectPackingStart, if_pos h]
      constructor
      · rintro hh
        injection hh with hh
        subst hh
        exact ⟨Nat.succ_pos _, by simpa using h, by omega⟩
      · rintro ⟨-, hbound, hall⟩
        cases i with
        | zero => rfl
        | succ n => exact absurd h (by simpa using hall 0 (Nat.succ_pos n))
    · simp only [detectPackingStart, if_neg h]
      cases i with
      | zero =>
        simp only [Option.map_eq_some']
        constructor
        · rintro ⟨i', -, hi'⟩
          omega
        · rintro ⟨-, hbound, -⟩
          exact absurd (by simpa using hbound) h
      | succ n =>
        simp only [Option.map_eq_some']
        constructor
        · rintro ⟨i', hi', heq⟩
          have hin : i' = n := by omega
          subst hin
          obtain ⟨hlen, hb, hall⟩ := (ih i').mp hi'
          refine ⟨by simpa using Nat.succ_lt_succ hlen, by simpa using hb, ?_⟩
          intro j hj
          cases j with
          | zero => simpa using eq_false_of_ne_true h
          | succ m => simpa using hall m (by omega)
        · rintro ⟨hlen, hb, hall⟩
          refine ⟨n, (ih n).mpr ⟨by simpa using hlen, by simpa using hb, ?_⟩, rfl⟩
          intro j hj
          simpa using hall (j + 1) (by omega)

/-- Without a boundary every page contributes to the accumulated text. -/
lemma accumulateText_eq_all (pages : List Chars)
    (h : ∀ t ∈ pages, isBoundaryPage t = false) :
    accumulateText pages = accumulateAllText pages := by
  induction pages with
  | nil => simp [accumulateText, accumulateAllText]
  | cons t ts ih =>
    have ht : isBoundaryPage t = false := h t (by simp)
    simp only [accumulateText, ht, Bool.false_eq_true, if_false, accumulateAllText,
      List.map_cons, List.flatten_cons]
    rw [ih (fun u hu => h u (by simp [hu]))]
    rfl

/-- C4: for every document the boundary detector reports the smallest page
index whose text contains the fixed marker conjunction (`"Codigo Cliente"`
and `"LN"`), scanning pages in order; when no page qualifies it reports
`none`, which is not an error, and the accumulated order-section text is
that of the whole document. -/
theorem detect_packing_start_spec (pages : List Chars) :
    (∀ i, detectPackingStart pages = some i ↔
      (i < pages.length ∧ isBoundaryPage (pages.getD i []) = true ∧
        ∀ j, j < i → isBoundaryPage (pages.getD j []) = false))
    ∧ (detectPackingStart pages = none ↔ ∀ t ∈ pages, isBoundaryPage t = false)
    ∧ (detectPackingStart pages = none →
        accumulateText pages = accumulateAllText pages) := by
  refine ⟨fun i => detectPackingStart_some_iff pages i, detectPackingStart_none_iff pages, ?_⟩
  intro hnone
  exact accumulateText_eq_all pages ((detectPackingStart_none_iff pages).mp hnone)

/-- Witness for C4: a document whose marker page is at index 1 is reported
at index 1, and a document with no marker page is reported `none` with all
pages accumulated. -/
theorem detect_packing_start_spec_witness :
    detectPackingStart ["first page".data, "Codigo Cliente ... LN".data, "tail".data] = some 1
    ∧ detectPackingStart ["first page".data, "second".data] = none
    ∧ accumulateText ["first page".data, "second".data] =
        accumulateAllText ["first page".data, "second".data] := by
  refine ⟨?_, ?_, ?_⟩
  · exact (detect_packing_start_spec _).1 1 |>.mpr ⟨by decide, by decide, by decide⟩
  · exact (detect_packing_start_spec _).2.1.mpr (by decide)
  · exact (detect_packing_start_spec _).2.2 ((detect_packing_start_spec _).2.1.mpr (by decide))

/-- Every record built from a segment carries the literal warehouse code. -/
lemma parseSegment_almacen (seg : Chars) (r : Row)
    (h : parseSegment seg = some r) : r.almacen = riestra := by
  simp only [parseSegment] at h
  split at h
  · exact absurd h (by simp)
  · split at h
    · exact absurd h (by simp)
    · split at h
      · exact absurd h (by simp)
      · injection h with h
        subst h
        rfl

/-- C9: every record produced by extraction has warehouse code equal to the
constant `"RIESTRA"`: that token is the segment delimiter, and the field is
assigned as a literal, never taken from the candidate text. -/
theorem extracted_warehouse_constant (pages : List Chars) (r : Row)
    (h : r ∈ (extract_picking_data pages).1) : r.almacen = "RIESTRA".data := by
  simp only [extract_picking_data, List.mem_filterMap] at h
  obtain ⟨seg, -, hseg⟩ := h
  exact parseSegment_almacen seg r hseg

/-- Witness for C9 at a concrete one-page document. -/
theorem extracted_warehouse_constant_witness :
    (⟨1, "ABC".data, "X".data, "y".data, 5, 6, riestra⟩ : Row).almacen = "RIESTRA".data :=
  extracted_warehouse_constant ["1 ABC X y 5 6 RIESTRA".data]
    ⟨1, "ABC".data, "X".data, "y".data, 5, 6, riestra⟩ (by decide)

/-- The matcher's tail check implies the claim-facing prefix shape. -/
lemma d4sepTail_prefixB (l : Chars) (h : case2TryJ.d4sepTail l = true) :
    d4sepPrefixB l = true := by
  rcases l with _ | ⟨a, _ | ⟨b, _ | ⟨c, _ | ⟨d, _ | ⟨e, rest⟩⟩⟩⟩⟩ <;>
    simp_all [case2TryJ.d4sepTail, d4sepPrefixB]

/-- Shape of a successful single attempt of the case-2 regex: the input
splits as `g1 ++ g2`, `g2` starts with four digits and a separator, and
`g1` ends with an uppercase letter. -/
lemma case2TryJ_spec (s : Chars) (k j : Nat) (g1 g2 : Chars) (hj : 1 ≤ j)
    (h : case2TryJ s k j = some (g1, g2)) :
    s = g1 ++ g2 ∧ d4sepPrefixB g2 = true ∧
      ∃ pre u, g1 = pre ++ [u] ∧ isUpperCh u = true := by
  simp only [case2TryJ] at h
  split at h
  · rename_i hcond
    injection h with h
    injection h with hg1 hg2
    simp only [Bool.and_eq_true] at hcond
    obtain ⟨⟨⟨⟨hlen1, -⟩, hlenj⟩, hallj⟩, htail⟩ := hcond
    subst hg1
    subst hg2
    refine ⟨(List.take_append_drop (k + j) s).symm, d4sepTail_prefixB _ htail, ?_⟩
    have hsplit : s.take (k + j) = s.take k ++ (s.drop k).take j := by
      rw [List.take_add]
    have hne : (s.drop k).take j ≠ [] := by
      intro hnil
      rw [hnil] at hlenj
      simp at hlenj
      omega
    rcases List.eq_nil_or_concat ((s.drop k).take j) with hnil | ⟨pre, u, hpu⟩
    · exact absurd hnil hne
    · refine ⟨s.take k ++ pre, u, ?_, ?_⟩
      · rw [hsplit, hpu]
        simp [List.concat_eq_append]
      · have hu : u ∈ (s.drop k).take j := by
          rw [hpu]
          simp
        exact List.all_eq_true.mp hallj u hu
  · exact absurd h (by simp)

/-- Shape of a successful case-2 backtracking search. -/
lemma case2Go_spec (s : Chars) (k : Nat) (g1 g2 : Chars)
    (h : case2Go s k = some (g1, g2)) :
    s = g1 ++ g2 ∧ d4sepPrefixB g2 = true ∧
      ∃ pre u, g1 = pre ++ [u] ∧ isUpperCh u = true := by
  induction k with
  | zero =>
    simp only [case2Go] at h
    cases h2 : case2TryJ s 0 2 with
    | some v =>
      rw [h2] at h
      simp only [Option.orElse, Option.some_orElse] at h
      exact case2TryJ_spec s 0 2 g1 g2 (by omega) (by rw [h2, h])
    | none =>
      rw [h2] at h
      simp only [Option.orElse, Option.none_orElse] at h
      exact case2TryJ_spec s 0 1 g1 g2 (by omega) h
  | succ k ih =>
    simp only [case2Go] at h
    cases h2 : case2TryJ s (k + 1) 2 with
    | some v =>
      rw [h2] at h
      simp only [Option.orElse, Option.some_orElse] at h
      exact case2TryJ_spec s (k + 1) 2 g1 g2 (by omega) (by rw [h2, h])
    | none =>
      rw [h2] at h
      simp only [Option.orElse, Option.none_orElse] at h
      cases h1 : case2TryJ s (k + 1) 1 with
      | some v =>
        rw [h1] at h
        simp only [Option.orElse, Option.some_orElse] at h
        exact case2TryJ_spec s (k + 1) 1 g1 g2 (by omega) (by rw [h1, h])
      | none =>
        rw [h1] at h
        simp only [Option.orElse, Option.none_orElse] at h
        exact ih h

/-- C10: when the natural-word rule does not apply and the concatenation of
the two (stripped) tokens matches the four-digit code regex, the splitter
returns exactly the two captured groups: the concatenation splits as
`g1 ++ g2`, the description side `g2` begins with exactly four digits
followed by `/`, `.` or `-`, and the legacy-code side `g1` ends with an
uppercase letter.  This rule is tried after the natural-word rule and
before the asterisk rule. -/
theorem fv_code_digit_split_spec (cv ar g1 g2 : Chars)
    (h1 : case1Applies (strip cv) = false)
    (h2 : case2Match (strip cv ++ strip ar) = some (g1, g2)) :
    split_cod_viejo_articulo cv ar = (g1, g2)
    ∧ strip cv ++ strip ar = g1 ++ g2
    ∧ d4sepPrefixB g2 = true
    ∧ ∃ pre u, g1 = pre ++ [u] ∧ isUpperCh u = true := by
  refine ⟨?_, ?_⟩
  · rw [split_eq_splitCases23 cv ar h1]
    simp only [splitCases23, h2]
  · simp only [case2Match] at h2
    exact case2Go_spec _ _ g1 g2 h2

/-- Witness for C10 at the scenario input `"RPFV0521CB0416/15.6-D"`. -/
theorem fv_code_digit_split_spec_witness :
    split_cod_viejo_articulo "RPFV0521CB0416/15.6-D".data [] =
      ("RPFV0521CB".data, "0416/15.6-D".data) :=
  (fv_code_digit_split_spec "RPFV0521CB0416/15.6-D".data []
    "RPFV0521CB".data "0416/15.6-D".data (by decide) (by decide)).1

/-! ### Order and aggregation infrastructure for the consolidator -/

lemma strLe_total : ∀ a b : Chars, strLe a b = true ∨ strLe b a = true
  | [], _ => Or.inl rfl
  | _ :: _, [] => Or.inr rfl
  | a :: as, b :: bs => by
    rcases Nat.lt_trichotomy a.toNat b.toNat with h | h | h
    · left
      simp [strLe, h]
    · rcases strLe_total as bs with ih | ih
      · left
        simp [strLe, h, ih]
      · right
        simp [strLe, h.symm, ih]
    · right
      simp [strLe, h]

lemma strLe_trans : ∀ a b c : Chars, strLe a b = true → strLe b c = true →
    strLe a c = true
  | [], _, _, _, _ => rfl
  | _ :: _, [], _, h, _ => by simp [strLe] at h
  | _ :: _, _ :: _, [], _, h => by simp [strLe] at h
  | a :: as, b :: bs, c :: cs, h1, h2 => by
    simp only [strLe] at h1 h2 ⊢
    split_ifs at h1 h2 ⊢ <;>
      first
      | rfl
      | omega
      | exact strLe_trans as bs cs h1 h2

lemma sortedKeys_nodup (rows : List Row) : (sortedKeys rows).Nodup :=
  (List.perm_insertionSort _ _).nodup_iff.mpr
    ((rows.map (fun r => r.cod_viejo)).nodup_dedup)

lemma sortedKeys_mem (rows : List Row) (a : Chars) :
    a ∈ sortedKeys rows ↔ a ∈ rows.map (fun r => r.cod_viejo) :=
  ((List.perm_insertionSort _ _).mem_iff).trans (List.mem_dedup)

lemma sortedKeys_length (rows : List Row) :
    (sortedKeys rows).length = (rows.map (fun r => r.cod_viejo)).dedup.length :=
  (List.perm_insertionSort _ _).length_eq

lemma consolidate_map_linea (rows : List Row) (ks : List Chars) (i : Nat) :
    (consolidate rows ks i).map (fun c => c.linea) = List.range' i ks.length := by
  induction ks generalizing i with
  | nil => rfl
  | cons k ks ih =>
    show (mkConsolidated rows k i).linea :: (consolidate rows ks (i + 1)).map (fun c => c.linea) =
      i :: List.range' (i + 1) ks.length
    rw [ih]
    rfl

lemma consolidate_map_key (rows : List Row) (ks : List Chars) (i : Nat) :
    (consolidate rows ks i).map (fun c => c.cod_viejo) = ks := by
  induction ks generalizing i with
  | nil => rfl
  | cons k ks ih =>
    show (mkConsolidated rows k i).cod_viejo :: _ = k :: ks
    rw [ih]
    rfl

lemma consolidate_map_qty (rows : List Row) (ks : List Chars) (i : Nat) :
    (consolidate rows ks i).map (fun c => c.cantidad) = ks.map (groupQty rows) := by
  induction ks generalizing i with
  | nil => rfl
  | cons k ks ih =>
    show (mkConsolidated rows k i).cantidad :: _ = groupQty rows k :: ks.map (groupQty rows)
    rw [ih]
    rfl

lemma mem_consolidate (rows : List Row) (ks : List Chars) (i : Nat) (cr : CRow)
    (h : cr ∈ consolidate rows ks i) :
    ∃ k ∈ ks, ∃ j, cr = mkConsolidated rows k j := by
  induction ks generalizing i with
  | nil => cases h
  | cons k ks ih =>
    rcases List.mem_cons.mp h with heq | hmem
    · exact ⟨k, by simp, i, heq⟩
    · obtain ⟨k', hk', j, hj⟩ := ih (i + 1) hmem
      exact ⟨k', by simp [hk'], j, hj⟩

lemma groupQty_cons (r : Row) (rs : List Row) (k : Chars) :
    groupQty (r :: rs) k = (if r.cod_viejo = k then r.cantidad else 0) + groupQty rs k := by
  by_cases h : r.cod_viejo = k
  · simp [groupQty, List.filter_cons, h]
  · simp [groupQty, List.filter_cons, h]

lemma sum_map_addQ (l : List Chars) (f g : Chars → ℚ) :
    (l.map (fun x => f x + g x)).sum = (l.map f).sum + (l.map g).sum := by
  induction l with
  | nil => simp
  | cons x xs ih =>
    simp only [List.map_cons, List.sum_cons, ih]
    ring

lemma sum_map_ite_zero (ks : List Chars) (k0 : Chars) (c : ℚ)
    (hnd : ks.Nodup) (hmem : k0 ∈ ks) :
    (ks.map (fun k => if k0 = k then c else 0)).sum = c := by
  induction ks with
  | nil => cases hmem
  | cons k ks ih =>
    rcases List.mem_cons.mp hmem with heq | hmem'
    · subst heq
      have hnotin : k0 ∉ ks := (List.nodup_cons.mp hnd).1
      have hz : (ks.map (fun k => if k0 = k then c else 0)).sum = 0 := by
        apply List.sum_eq_zero
        intro x hx
        obtain ⟨k', hk', rfl⟩ := List.mem_map.mp hx
        rw [if_neg (fun hh => hnotin (by rw [hh]; exact hk'))]
      simp [hz]
    · have hne : k0 ≠ k := by
        intro hh
        subst hh
        exact (List.nodup_cons.mp hnd).1 hmem'
      simp only [List.map_cons, List.sum_cons]
      rw [if_neg hne, ih (List.nodup_cons.mp hnd).2 hmem', zero_add]

lemma sum_groupQty_eq (rows : List Row) (ks : List Chars)
    (hnd : ks.Nodup) (hcov : ∀ r ∈ rows, r.cod_viejo ∈ ks) :
    (ks.map (groupQty rows)).sum = (rows.map (fun r => r.cantidad)).sum := by
  induction rows with
  | nil =>
    simp only [List.map_nil, List.sum_nil]
    apply List.sum_eq_zero
    intro x hx
    obtain ⟨k, -, rfl⟩ := List.mem_map.mp hx
    simp [groupQty]
  | cons r rs ih =>
    have h1 : ks.map (groupQty (r :: rs)) =
        ks.map (fun k => (if r.cod_viejo = k then r.cantidad else 0) + groupQty rs k) :=
      List.map_congr_left (fun k _ => groupQty_cons r rs k)
    rw [h1, sum_map_addQ, ih (fun x hx => hcov x (List.mem_cons_of_mem _ hx)),
      sum_map_ite_zero ks r.cod_viejo r.cantidad hnd (hcov r (by simp))]
    simp

/-! ### Consolidator theorems -/

/-- C1 (conservation law): for every input list of extracted records, the
sum of `cantidad` over the consolidated output of `process_picking_data`
equals the sum of `cantidad` over the input records. -/
theorem process_picking_data_quantity_sum (rows : List Row) :
    ((process_picking_data rows).map (fun c => c.cantidad)).sum =
      (rows.map (fun r => r.cantidad)).sum := by
  rw [process_picking_data, consolidate_map_qty]
  exact sum_groupQty_eq rows (sortedKeys rows) (sortedKeys_nodup rows)
    (fun r hr => (sortedKeys_mem rows _).mpr (List.mem_map_of_mem _ hr))

/-- C7: the consolidated output is sorted so that each adjacent pair of
records has `cod_viejo` in nondecreasing code-point lexicographic order,
and the `linea` values are exactly `1..N` where `N` is the number of
distinct `cod_viejo` values of the input. -/
theorem consolidated_sorted_and_renumbered (rows : List Row) :
    List.Chain' (fun p q => strLe p.cod_viejo q.cod_viejo = true) (process_picking_data rows)
    ∧ (process_picking_data rows).map (fun c => c.linea) =
        List.range' 1 ((rows.map (fun r => r.cod_viejo)).dedup.length) := by
  constructor
  · haveI : IsTotal Chars (fun a b => strLe a b = true) := ⟨strLe_total⟩
    haveI : IsTrans Chars (fun a b => strLe a b = true) := ⟨strLe_trans⟩
    have hs : List.Sorted (fun a b => strLe a b = true) (sortedKeys rows) :=
      List.sorted_insertionSort _ _
    have hchain : List.Chain' (fun a b => strLe a b = true) (sortedKeys rows) :=
      List.Pairwise.chain' hs
    rw [← consolidate_map_key rows (sortedKeys rows) 1] at hchain
    exact (List.chain'_map _).mp hchain
  · rw [process_picking_data, consolidate_map_linea, sortedKeys_length]

/-- C8: every consolidated record takes its non-summed scalar fields
(`codigo`, `articulo`, `stock`, `almacen`) from the first input record with
its `cod_viejo` in original order, and its `cantidad` is the sum over the
whole group; `stock` and `almacen` are never summed. -/
theorem consolidated_first_seen_fields (rows : List Row) (cr : CRow) (r0 : Row)
    (hmem : cr ∈ process_picking_data rows)
    (hfind : rows.find? (fun r => r.cod_viejo == cr.cod_viejo) = some r0) :
    cr.codigo = r0.codigo ∧ cr.articulo = r0.articulo ∧ cr.stock = r0.stock
    ∧ cr.almacen = r0.almacen
    ∧ cr.cantidad = ((rows.filter (fun r => r.cod_viejo == cr.cod_viejo)).map
        (fun r => r.cantidad)).sum := by
  obtain ⟨k, hk, j, rfl⟩ := mem_consolidate rows (sortedKeys rows) 1 cr hmem
  have hcv : (mkConsolidated rows k j).cod_viejo = k := rfl
  rw [hcv] at hfind
  have hfrw : firstRowWith rows k = r0 := by
    rw [firstRowWith, hfind]
    rfl
  exact ⟨by simp [mkConsolidated, hfrw], by simp [mkConsolidated, hfrw],
    by simp [mkConsolidated, hfrw], by simp [mkConsolidated, hfrw],
    by simp [mkConsolidated, hcv, groupQty]⟩

/-- Witness for C8 on the one-record input `[rowW]`. -/
theorem consolidated_first_seen_fields_witness :
    crowW.codigo = rowW.codigo ∧ crowW.articulo = rowW.articulo
    ∧ crowW.stock = rowW.stock ∧ crowW.almacen = rowW.almacen
    ∧ crowW.cantidad = (([rowW].filter (fun r => r.cod_viejo == crowW.cod_viejo)).map
        (fun r => r.cantidad)).sum :=
  consolidated_first_seen_fields [rowW] crowW rowW
    (by with_unfolding_all decide) (by decide)

end PackingList
